import Mathlib

/-!
Verification of the maple-lofi / soundweave audio-pipeline orchestration layer.

The Python sources are shallowly embedded: durations, gains and tempo factors
become rationals (Python binary floats are exact for the halvings, doublings,
minima and comparisons the theorems talk about; where decimal formatting
rounds, an explicit `round3`/`round2` models it), f-string filter graphs become
structured node lists together with a renderer to the exact graph text, and
raising code becomes `Except`.
-/

namespace MapleLofi

/-- Audio track record, from the `AudioTrack` dataclass in
`soundweave/stages/ingest.py` (the `maple_lofi` package imports an identical
dataclass from its own ingest module). -/
structure AudioTrack where
  path : String
  filename : String
  duration_s : ℚ
  sample_rate : ℤ
  channels : ℤ
  codec : String
deriving Repr, DecidableEq

/-- Placeholder track used only as the default for out-of-range `List.getD`
indexing in theorem statements; every such access is guarded by an
index-in-bounds hypothesis. -/
def defaultTrack : AudioTrack := ⟨"", "", 0, 0, 0, ""⟩

/-- `calculate_crossfade_durations` from `maple_lofi/stages/merge.py`.
The source iterates `i` over `range(len(tracks) - 1)` reading `tracks[i]` and
`tracks[i+1]`; the structural recursion below visits exactly those adjacent
pairs in the same order.  The `logger` parameter of the source only emits a
warning and does not affect the returned list, so it is dropped. -/
def calculate_crossfade_durations (tracks : List AudioTrack) (default_crossfade_s : ℚ) :
    List ℚ :=
  match tracks with
  | [] => []
  | [_] => []
  | t1 :: t2 :: rest =>
      (if min t1.duration_s t2.duration_s < default_crossfade_s then
        max 1 (min t1.duration_s t2.duration_s * (1/2))
      else default_crossfade_s)
        :: calculate_crossfade_durations (t2 :: rest) default_crossfade_s

/-! ## Filter graphs (`maple_lofi/ffmpeg/commands.py`)

The source builds `filter_complex` strings such as
`[0:a]loudnorm=I=-20:TP=-1.5:LRA=11[norm0]` directly by f-string
interpolation.  Every part has the shape `[in]...[in]FILTERTEXT[out]`, so the
graph is embedded as a list of `FilterNode`s holding the consumed labels, the
filter text between the brackets, and the single produced label; `render`
recovers exactly the interpolated string. -/

/-- Stream labels occurring in the graphs: `"{i}:a"` input streams,
`"norm{i}"` and `"a{i}"` from the merge builder, and the fixed string labels
of the lofi chain (`"texture"`, `"hp"`, `"out"`, ...). -/
inductive SLabel where
  | inA (i : ℕ)
  | norm (i : ℕ)
  | acc (i : ℕ)
  | txt (s : String)
deriving Repr, DecidableEq

/-- Text of a label, exactly as interpolated by the source. -/
def SLabel.render : SLabel → String
  | .inA i => toString i ++ ":a"
  | .norm i => "norm" ++ toString i
  | .acc i => "a" ++ toString i
  | .txt s => s

/-- One `filter_complex` part `[in]...[in]filter[out]`. -/
structure FilterNode where
  inputs : List SLabel
  filter : String
  output : SLabel
deriving Repr, DecidableEq

/-- A label in brackets, as referenced inside a filter part. -/
def bracketed (l : SLabel) : String := "[" ++ SLabel.render l ++ "]"

/-- Concatenation of a list of strings (Python string join with empty separator). -/
def concatStrings : List String → String
  | [] => ""
  | s :: rest => s ++ concatStrings rest

/-- Text of one filter part, exactly as the source f-strings build it. -/
def FilterNode.render (n : FilterNode) : String :=
  concatStrings (n.inputs.map bracketed) ++ n.filter ++ bracketed n.output

/-- Python string join of the parts with `";"` as separator: text of the whole graph. -/
def renderGraph : List FilterNode → String
  | [] => ""
  | [n] => n.render
  | n :: rest => n.render ++ ";" ++ renderGraph rest

/-- Stand-in for Python's `str(float)` when a rational is interpolated into a
filter string (only its determinism matters to the theorems below). -/
def ratStr (q : ℚ) : String :=
  if q.den = 1 then toString q.num ++ ".0" else toString q.num ++ "/" ++ toString q.den

/-- All labels consumed by some node of the graph. -/
def consumedLabels (g : List FilterNode) : List SLabel :=
  (g.map FilterNode.inputs).flatten

/-- Labels produced by a node but consumed by no node: the graph's terminal
output labels. -/
def terminalLabels (g : List FilterNode) : List SLabel :=
  (g.map FilterNode.output).filter (fun l => decide (l ∉ consumedLabels g))

/-! ### Merge builder (`build_merge_command`, lines 9-97) -/

/-- The per-input loudness-normalisation nodes
`[{i}:a]loudnorm=I=-20:TP=-1.5:LRA=11[norm{i}]`, `i = 0..n-1`. -/
def mergeNormNodes (n : ℕ) : List FilterNode :=
  (List.range n).map fun i => ⟨[.inA i], "loudnorm=I=-20:TP=-1.5:LRA=11", .norm i⟩

/-- The source's `current_label` at the start of crossfade iteration `i`:
`norm0` for `i = 0`, `a{i}` afterwards. -/
def mergeCur (i : ℕ) : SLabel := if i = 0 then .norm 0 else .acc i

/-- The crossfade chain
`[{cur}][norm{i+1}]acrossfade=d={cf[i]}:c1=tri:c2=tri[a{i+1}]`, `i = 0..n-2`.
The source indexes `crossfade_durations[i]`; callers guarantee the list has
length `n-1` (as `calculate_crossfade_durations` produces), so the `getD`
default is never reached there. -/
def mergeCrossfadeNodes (n : ℕ) (crossfade_durations : List ℚ) : List FilterNode :=
  (List.range (n - 1)).map fun i =>
    ⟨[mergeCur i, .norm (i + 1)],
     "acrossfade=d=" ++ ratStr (crossfade_durations.getD i 0) ++ ":c1=tri:c2=tri",
     .acc (i + 1)⟩

/-- The complete merge filter graph for `n ≥ 2` inputs. -/
def mergeGraph (n : ℕ) (crossfade_durations : List ℚ) : List FilterNode :=
  mergeNormNodes n ++ mergeCrossfadeNodes n crossfade_durations

/-- Errors raised by the command builders; `build_merge_command` raises the
built-in `ValueError("Cannot merge zero tracks")` on an empty track list. -/
inductive CommandError where
  | valueError (msg : String)
deriving Repr, DecidableEq

/-- `build_merge_command` from `maple_lofi/ffmpeg/commands.py`.  After the
fold over adjacent pairs the source's `current_label` is `a{n-1}` (that is
`mergeCur (n-1)` for `n ≥ 2`), which is what `-map` references. -/
def build_merge_command (tracks : List AudioTrack) (output_path : String)
    (crossfade_durations : List ℚ) : Except CommandError (List String) :=
  match tracks with
  | [] => .error (.valueError "Cannot merge zero tracks")
  | [t] =>
      .ok ["ffmpeg", "-i", t.path, "-af", "loudnorm=I=-20:TP=-1.5:LRA=11",
           "-ar", "48000", "-ac", "2", "-sample_fmt", "s16", "-y", output_path]
  | ts =>
      .ok (["ffmpeg"]
        ++ (ts.map fun t => ["-i", t.path]).flatten
        ++ ["-filter_complex", renderGraph (mergeGraph ts.length crossfade_durations)]
        ++ ["-map", bracketed (mergeCur (ts.length - 1)),
            "-ar", "48000", "-ac", "2", "-sample_fmt", "s16", "-y", output_path])

/-! ### Aesthetic chain builder (`build_lofi_command`, lines 100-234) -/

/-- Decimal rounding to 3 places: the effective coefficient of the residual
tempo node, which the source formats with a 3-decimal format spec.  Mathlib's
`round` rounds half away from the lower value while Python's formatting rounds
half to even, but no value appearing in the theorems below sits on a tie. -/
def round3 (q : ℚ) : ℚ := (round (q * 1000) : ℤ) / 1000

/-- Decimal rounding to 2 places (Python `round(x, 2)`; same tie remark as
`round3`). -/
def round2 (q : ℚ) : ℚ := (round (q * 100) : ℤ) / 100

/-- One emitted `atempo` step: a boundary `0.5x` node from the first while
loop, a boundary `2.0x` node from the second, or the final residual node
carrying the 3-decimal-rounded remaining factor. -/
inductive TempoStep where
  | half
  | double
  | residual (c : ℚ)
deriving Repr, DecidableEq

/-- Effective tempo coefficient of a step. -/
def stepCoeff : TempoStep → ℚ
  | .half => 1/2
  | .double => 2
  | .residual c => c

/-- Output label of a step's node: the while loops label their nodes
`tempo_intermediate`, the residual node is labelled `tempo`. -/
def stepLabel : TempoStep → SLabel
  | .residual _ => .txt "tempo"
  | _ => .txt "tempo_intermediate"

/-- Three-digit zero padding for the fractional part of a 3-decimal format. -/
def pad3 (k : ℕ) : String :=
  if k < 10 then "00" ++ toString k
  else if k < 100 then "0" ++ toString k
  else toString k

/-- The 3-decimal format of the source's residual `atempo` value, for
rationals that are nonnegative multiples of `1/1000` (all that occurs). -/
def fmt3 (q : ℚ) : String :=
  toString ⌊q⌋ ++ "." ++ pad3 (⌊q * 1000⌋ % 1000).toNat

/-- Filter text of a step's node, exactly as the source emits it. -/
def stepFilter : TempoStep → String
  | .half => "atempo=0.5"
  | .double => "atempo=2.0"
  | .residual c => "atempo=" ++ fmt3 c

/-- The two `while` loops and the residual emission of `build_lofi_command`:
`while tempo < 0.5` emits a `0.5x` node and doubles `tempo` (`tempo /= 0.5`);
`while tempo > 2.0` emits a `2.0x` node and halves it; finally
`if tempo != 1.0` emits the residual node formatted to 3 decimals.  The source
loops forever on `t ≤ 0` (doubling a nonpositive number never reaches `0.5`);
the embedding is total, and every theorem about it assumes `0 < t`, where it
agrees with the source step by step. -/
def tempoSteps (t : ℚ) : List TempoStep :=
  if 0 < t ∧ t < 1/2 then .half :: tempoSteps (2 * t)
  else if 2 < t then .double :: tempoSteps (t / 2)
  else if t ≠ 1 then [.residual (round3 t)] else []
termination_by (⌈t⌉ + ⌈1/t⌉).toNat
decreasing_by
· obtain ⟨h0, h1⟩ := ‹0 < t ∧ t < 1/2›
  have hx : 2 < 1/t := (lt_div_iff h0).mpr (by linarith)
  have hct : ⌈t⌉ = 1 := by
    rw [Int.ceil_eq_iff] <;> push_cast <;> constructor <;> linarith
  have hc2t : ⌈2*t⌉ = 1 := by
    rw [Int.ceil_eq_iff] <;> push_cast <;> constructor <;> linarith
  have hrw : 1/(2*t) = (1/t)/2 := by ring
  have hdec : ⌈(1/t)/2⌉ ≤ ⌈1/t⌉ - 1 := by
    have : (1/t)/2 ≤ 1/t - 1 := by linarith
    calc ⌈(1/t)/2⌉ ≤ ⌈1/t - 1⌉ := Int.ceil_le_ceil this
    _ = ⌈1/t⌉ - 1 := Int.ceil_sub_one _
  have h3 : (2:ℤ) < ⌈1/t⌉ := by exact_mod_cast lt_of_lt_of_le hx (Int.le_ceil _)
  rw [hrw, hct, hc2t]
  exact (Int.toNat_lt_toNat (by omega)).mpr (by omega)
· have h2 := ‹2 < t›
  have h0 : 0 < t := by linarith
  have hinv : (0:ℚ) < 1/t := by positivity
  have hinvle : 1/t ≤ 1 := by
    rw [div_le_one h0]; linarith
  have hci : ⌈1/t⌉ = 1 := by
    rw [Int.ceil_eq_iff] <;> push_cast <;> constructor <;> linarith
  have hrw : 1/(t/2) = 2/t := by ring
  have hc2i : ⌈2/t⌉ = 1 := by
    have hp : (0:ℚ) < 2/t := div_pos (by norm_num) h0
    have hle : 2/t ≤ 1 := by rw [div_le_one h0]; linarith
    rw [Int.ceil_eq_iff] <;> push_cast <;> constructor <;> linarith
  have hdec : ⌈t/2⌉ ≤ ⌈t⌉ - 1 := by
    have : t/2 ≤ t - 1 := by linarith
    calc ⌈t/2⌉ ≤ ⌈t - 1⌉ := Int.ceil_le_ceil this
    _ = ⌈t⌉ - 1 := Int.ceil_sub_one _
  have h3 : (2:ℤ) < ⌈t⌉ := by exact_mod_cast lt_of_lt_of_le h2 (Int.le_ceil _)
  rw [hrw, hci, hc2i]
  exact (Int.toNat_lt_toNat (by omega)).mpr (by omega)

/-- Configuration fields of `PipelineConfig` (`maple_lofi/config.py`) consumed
by `build_lofi_command`.  The source field `comp_ratio` is named `comp_r`
here. -/
structure PipelineConfig where
  texture : Option String
  drums : Option String
  highpass_hz : ℤ
  lowpass_hz : ℤ
  texture_gain_db : ℚ
  drums_gain_db : ℚ
  drums_start_s : ℚ
  enable_compression : Bool
  enable_saturation : Bool
  enable_reverb : Bool
  tempo_factor : ℚ
  comp_r : ℚ
  comp_threshold_db : ℚ
  comp_attack_ms : ℚ
  comp_release_ms : ℚ
deriving Repr, DecidableEq

/-- Fold of the emitted tempo steps into filter nodes: each node consumes the
current stream label and the current label becomes the node's output, exactly
as the source reassigns `current_stream` after each append. -/
def tempoNodesAux (cur : SLabel) : List TempoStep → List FilterNode
  | [] => []
  | s :: rest => ⟨[cur], stepFilter s, stepLabel s⟩ :: tempoNodesAux (stepLabel s) rest

/-- The texture node `[1:a]aloop=loop=-1:size=2e+09[texture]` (the texture,
when present, is always input index 1). -/
def textureNode : FilterNode := ⟨[.inA 1], "aloop=loop=-1:size=2e+09", .txt "texture"⟩

/-- The drums node: input index 2 if a texture is also configured, else 1,
with an `adelay` appended when `drums_start_s > 0` (Python `int()` truncation
of `drums_start_s * 1000` equals the floor for the positive values on this
branch). -/
def drumsNode (c : PipelineConfig) : FilterNode :=
  let idx : ℕ := if c.texture.isSome then 2 else 1
  if 0 < c.drums_start_s then
    ⟨[.inA idx],
     "aloop=loop=-1:size=2e+09,adelay=" ++ toString ⌊c.drums_start_s * 1000⌋ ++ "|"
       ++ toString ⌊c.drums_start_s * 1000⌋,
     .txt "drums"⟩
  else ⟨[.inA idx], "aloop=loop=-1:size=2e+09", .txt "drums"⟩

/-- The `filter_parts` list of `build_lofi_command`, node by node in source
order: optional texture/drums loop nodes, their volume nodes and the `amix`
node when any auxiliary stream is present, the tempo chain when
`tempo_factor != 1.0`, the highpass/lowpass pair, then the optional reverb,
saturation and compression nodes, and the always-present limiter labelled
`out`. -/
def lofiFilterNodes (c : PipelineConfig) : List FilterNode :=
  let auxNodes :=
    (if c.texture.isSome then [textureNode] else [])
      ++ (if c.drums.isSome then [drumsNode c] else [])
  let hasAux := c.texture.isSome || c.drums.isSome
  let volNodes :=
    (if c.texture.isSome then
       [⟨[.txt "texture"], "volume=" ++ ratStr c.texture_gain_db ++ "dB", .txt "texture_vol"⟩]
     else [])
      ++ (if c.drums.isSome then
       [⟨[.txt "drums"], "volume=" ++ ratStr c.drums_gain_db ++ "dB", .txt "drums_vol"⟩]
     else [])
  let mixInputs := [SLabel.inA 0]
    ++ (if c.texture.isSome then [SLabel.txt "texture_vol"] else [])
    ++ (if c.drums.isSome then [SLabel.txt "drums_vol"] else [])
  let mixNodes :=
    if hasAux then
      volNodes ++ [⟨mixInputs, "amix=inputs=" ++ toString mixInputs.length ++ ":normalize=0",
                    .txt "mixed"⟩]
    else []
  let cur0 : SLabel := if hasAux then .txt "mixed" else .inA 0
  let tempoPart :=
    if c.tempo_factor ≠ 1 then tempoNodesAux cur0 (tempoSteps c.tempo_factor) else []
  let cur1 :=
    if c.tempo_factor ≠ 1 then ((tempoSteps c.tempo_factor).map stepLabel).getLastD cur0
    else cur0
  let eqNodes : List FilterNode :=
    [⟨[cur1], "highpass=f=" ++ toString c.highpass_hz, .txt "hp"⟩,
     ⟨[.txt "hp"], "lowpass=f=" ++ toString c.lowpass_hz, .txt "lp"⟩]
  let revNodes :=
    if c.enable_reverb then
      [(⟨[.txt "lp"], "aecho=in_gain=0.8:out_gain=0.88:delays=60|120:decays=0.3|0.25",
        .txt "reverb"⟩ : FilterNode)]
    else []
  let cur3 : SLabel := if c.enable_reverb then .txt "reverb" else .txt "lp"
  let satNodes :=
    if c.enable_saturation then
      [(⟨[cur3], "asubboost=dry=0.5:wet=0.5:boost=3:decay=0.6:feedback=0.6:cutoff=150",
        .txt "sat"⟩ : FilterNode)]
    else []
  let cur4 : SLabel := if c.enable_saturation then .txt "sat" else cur3
  let compNodes :=
    if c.enable_compression then
      [(⟨[cur4],
        "acompressor=ratio=" ++ ratStr c.comp_r ++ ":threshold=" ++ ratStr c.comp_threshold_db
          ++ "dB:attack=" ++ ratStr c.comp_attack_ms ++ ":release=" ++ ratStr c.comp_release_ms,
        .txt "comp"⟩ : FilterNode)]
    else []
  let cur5 : SLabel := if c.enable_compression then .txt "comp" else cur4
  auxNodes ++ mixNodes ++ tempoPart ++ eqNodes ++ revNodes ++ satNodes ++ compNodes
    ++ [⟨[cur5], "alimiter=limit=-1dB:attack=5:release=50", .txt "out"⟩]

/-- `build_lofi_command`: the `(wav_cmd, mp3_cmd)` pair built around the
filter graph above. -/
def build_lofi_command (input_audio output_wav output_mp3 : String) (c : PipelineConfig) :
    List String × List String :=
  (["ffmpeg", "-i", input_audio]
     ++ (match c.texture with | some p => ["-i", p] | none => [])
     ++ (match c.drums with | some p => ["-i", p] | none => [])
     ++ ["-filter_complex", renderGraph (lofiFilterNodes c), "-map", "[out]",
         "-ar", "48000", "-ac", "2", "-sample_fmt", "s16", "-y", output_wav],
   ["ffmpeg", "-i", output_wav, "-codec:a", "libmp3lame", "-b:a", "320k", "-y", output_mp3])

/-! ## Ordering validation (`soundweave/stages/ingest.py`, `validate_ordering`) -/

/-- The payload of the `ValidationError` raised by `validate_ordering`: which
check fired and the sorted list of file names its f-string message
interpolates (`', '.join(sorted(...))`). -/
inductive OrderingIssue where
  | extraInOrder (files : List String)
  | missingFromOrder (files : List String)
deriving Repr, DecidableEq

/-- A file name appears in the error's message text iff it is in the
interpolated list. -/
def namesFile : OrderingIssue → String → Prop
  | .extraInOrder l, f => f ∈ l
  | .missingFromOrder l, f => f ∈ l

/-- Insertion of a string into a sorted list, for `sortStrings`. -/
def insertSorted (x : String) : List String → List String
  | [] => [x]
  | y :: ys => if x ≤ y then x :: y :: ys else y :: insertSorted x ys

/-- Python `sorted` on strings (code-point order; insertion sort — the result
on the duplicate-free lists it is applied to is the unique sorted
permutation, so the algorithm choice is immaterial). -/
def sortStrings (l : List String) : List String := l.foldr insertSorted []

/-- `validate_ordering`: `unique_ordered = set(ordered_filenames)` is modelled
by `dedup`; the extraneous-files check runs first and raises, then the
missing-files check.  The `available_files` set parameter is passed as a list
whose membership is the set membership.  The informational duplicate logging
does not affect the result and is dropped. -/
def validate_ordering (ordered_filenames : List String) (available_files : List String) :
    Except OrderingIssue Unit :=
  let unique_ordered := ordered_filenames.dedup
  let extra_in_order := sortStrings (unique_ordered.filter fun f => decide (f ∉ available_files))
  if extra_in_order ≠ [] then .error (.extraInOrder extra_in_order)
  else
    let missing_from_order :=
      sortStrings (available_files.dedup.filter fun f => decide (f ∉ unique_ordered))
    if missing_from_order ≠ [] then .error (.missingFromOrder missing_from_order)
    else .ok ()

/-! ## YouTube timestamps (`soundweave/utils/youtube.py`) -/

/-- CPython `PurePath.stem` on a bare file name: drop the part from the last
dot on, provided that dot is neither the first nor the last character. -/
def pathStem (s : String) : String :=
  match s.data.reverse.findIdx? (· = '.') with
  | none => s
  | some ri =>
      let i := s.data.length - 1 - ri
      if 0 < i ∧ i < s.data.length - 1 then ⟨s.data.take i⟩ else s

/-- The `while` loop of `clean_track_name` takes `Path(name).stem` until it no
longer changes.  Each changing step strictly shortens the string, so iterating
`length` many times reaches that fixed point. -/
def stripExtensions (s : String) : String := pathStem^[s.length] s

/-- `clean_track_name`: strip all trailing extensions, then replace
underscores with spaces. -/
def clean_track_name (filename : String) : String :=
  (stripExtensions filename).replace "_" " "

/-- The loop body of `generate_youtube_timestamps`: append
`(current_time, cleaned name)` for each track and, for every track but the
last, advance `current_time` by `duration - crossfade`. -/
def gytAux (crossfade_duration_s : ℚ) (current_time : ℚ) :
    List AudioTrack → List (ℚ × String)
  | [] => []
  | [t] => [(current_time, clean_track_name t.filename)]
  | t :: t2 :: rest =>
      (current_time, clean_track_name t.filename)
        :: gytAux crossfade_duration_s (current_time + t.duration_s - crossfade_duration_s)
             (t2 :: rest)

/-- `generate_youtube_timestamps` from `soundweave/utils/youtube.py`. -/
def generate_youtube_timestamps (tracks : List AudioTrack) (crossfade_duration_s : ℚ) :
    List (ℚ × String) :=
  gytAux crossfade_duration_s 0 tracks

/-- The offsets of the timestamp map, as a plain scan (proved below to be the
first components of `gytAux`). -/
def offsetList (crossfade_duration_s : ℚ) (current_time : ℚ) : List AudioTrack → List ℚ
  | [] => []
  | t :: rest =>
      current_time
        :: offsetList crossfade_duration_s (current_time + t.duration_s - crossfade_duration_s)
             rest

/-! ## Run ledger (`maple_lofi/logging/manifest.py`, `ManifestBuilder.add_output`) -/

/-- Snapshot of one on-disk file at the moment `add_output` runs: byte size,
sha256 digest, and the duration the metadata probe would report (`none` when
probing raises, which `add_output` swallows). -/
structure FileInfo where
  size_bytes : ℕ
  sha256 : String
  probed_duration : Option ℚ
deriving Repr, DecidableEq

/-- The dict `add_output` stores under `data["outputs"][name]`; `duration_s`
is present only when the probed, 2-decimal-rounded duration is truthy. -/
structure OutputData where
  path : String
  file_size_mb : ℚ
  sha256 : String
  duration_s : Option ℚ
deriving Repr, DecidableEq

/-- The mutable `data` dict of `ManifestBuilder` (the fixed version/platform
fields are constants and omitted).  Dicts keyed by strings are association
lists whose keys are distinct. -/
structure ManifestData where
  run_id : String
  timestamp : String
  inputs : List (String × String)
  outputs : List (String × OutputData)
  stages : List String
  ffmpeg_commands : List String
  warnings : List String
  errors : List String
deriving Repr, DecidableEq

/-- Python dict assignment `d[k] = v` on an association list: overwrite in
place when the key exists, else append. -/
def dictInsert (k : String) (v : OutputData) (l : List (String × OutputData)) :
    List (String × OutputData) :=
  if l.any (fun p => p.1 = k) then l.map (fun p => if p.1 = k then (k, v) else p)
  else l ++ [(k, v)]

/-- The `output_data` record `add_output` builds from the file snapshot:
size in mebibytes rounded to 2 decimals, the sha256 digest, and the probed
duration under the truthiness filter `if duration_s:` (which drops both
`None` and `0.0`). -/
def mkOutputData (path : String) (fi : FileInfo) : OutputData :=
  { path := path
    file_size_mb := round2 ((fi.size_bytes : ℚ) / 1048576)
    sha256 := fi.sha256
    duration_s :=
      match fi.probed_duration.map round2 with
      | some d => if d ≠ 0 then some d else none
      | none => none }

/-- `ManifestBuilder.add_output`: return unchanged when the path does not
exist (`if not path.exists(): return`), else store the metadata record under
`name` in `data["outputs"]`.  The filesystem is the snapshot function
`fs : path → Option FileInfo`. -/
def add_output (fs : String → Option FileInfo) (m : ManifestData) (name : String)
    (path : String) : ManifestData :=
  match fs path with
  | none => m
  | some fi => { m with outputs := dictInsert name (mkOutputData path fi) m.outputs }

/-! ## Concrete fixtures used by witnesses and counterexamples -/

/-- A half-second track. -/
def tA : AudioTrack := ⟨"/in/a.mp3", "a.mp3", 1/2, 44100, 2, "mp3"⟩

/-- A ten-second track. -/
def tB : AudioTrack := ⟨"/in/b.mp3", "b.mp3", 10, 44100, 2, "mp3"⟩

/-- A one-second track. -/
def trShort : AudioTrack := ⟨"/in/s.mp3", "s.mp3", 1, 44100, 2, "mp3"⟩

/-- Tracks of durations 10, 12 and 8 (the spec's boundary-reconstruction
example). -/
def tr10 : AudioTrack := ⟨"/in/t10.mp3", "t10.mp3", 10, 44100, 2, "mp3"⟩

/-- Second track of the example. -/
def tr12 : AudioTrack := ⟨"/in/t12.mp3", "t12.mp3", 12, 44100, 2, "mp3"⟩

/-- Third track of the example. -/
def tr8 : AudioTrack := ⟨"/in/t8.mp3", "t8.mp3", 8, 44100, 2, "mp3"⟩

/-- A configuration with the source defaults that matter here: no auxiliary
streams, reverb on, saturation/compression off, tempo factor 0.75. -/
def cfgDefault : PipelineConfig :=
  { texture := none, drums := none, highpass_hz := 35, lowpass_hz := 9500
    texture_gain_db := -26, drums_gain_db := -22, drums_start_s := 0
    enable_compression := false, enable_saturation := false, enable_reverb := true
    tempo_factor := 3/4, comp_r := 2, comp_threshold_db := -23
    comp_attack_ms := 25, comp_release_ms := 200 }

/-- The same configuration with tempo factor 0.2, which makes the two while
loops emit two boundary nodes (reverb off to keep the graph minimal). -/
def cfgTempoSmall : PipelineConfig :=
  { cfgDefault with tempo_factor := 1/5, enable_reverb := false }

/-- A one-file filesystem snapshot for the ledger witness. -/
def fs0 : String → Option FileInfo :=
  fun p => if p = "/out/merged_clean.wav" then some ⟨1048576, "d00d", none⟩ else none

/-- An empty ledger. -/
def m0 : ManifestData :=
  { run_id := "r1", timestamp := "2026-01-01T00:00:00", inputs := [], outputs := []
    stages := [], ffmpeg_commands := [], warnings := [], errors := [] }

/-! # Helper lemmas -/

theorem ccd_length (tracks : List AudioTrack) (d : ℚ) :
    (calculate_crossfade_durations tracks d).length = tracks.length - 1 := by
  induction tracks with
  | nil => simp [calculate_crossfade_durations]
  | cons t rest ih =>
      cases rest with
      | nil => simp [calculate_crossfade_durations]
      | cons t2 r2 =>
          simp only [calculate_crossfade_durations, List.length_cons] at ih ⊢
          omega

theorem ccd_getD (tracks : List AudioTrack) (d : ℚ) (i : ℕ) (h : i + 1 < tracks.length) :
    (calculate_crossfade_durations tracks d).getD i 0 =
      (if min ((tracks.getD i defaultTrack).duration_s)
            ((tracks.getD (i+1) defaultTrack).duration_s) < d then
        max 1 (min ((tracks.getD i defaultTrack).duration_s)
            ((tracks.getD (i+1) defaultTrack).duration_s) * (1/2))
      else d) := by
  induction tracks generalizing i with
  | nil => simp at h
  | cons t rest ih =>
      cases rest with
      | nil => simp at h
      | cons t2 r2 =>
          cases i with
          | zero => simp [calculate_crossfade_durations]
          | succ j =>
              have hj : j + 1 < (t2 :: r2).length := by
                simpa [Nat.succ_lt_succ_iff] using h
              simpa [calculate_crossfade_durations] using ih j hj

theorem getD_mem_of_lt (l : List AudioTrack) (i : ℕ) (d : AudioTrack) (h : i < l.length) :
    l.getD i d ∈ l := by
  induction l generalizing i with
  | nil => simp at h
  | cons t rest ih =>
      cases i with
      | zero => simp
      | succ j =>
          have hmem := ih j (by simpa [Nat.succ_lt_succ_iff] using h)
          simp only [List.getD_cons_succ]
          exact List.mem_cons_of_mem _ hmem

/-! # Claim theorems -/

/-- Claim C2: for every track list and default duration, the crossfade
scheduler returns exactly `N-1` durations, the `i`-th being
`max(1.0, m * 0.5)` when `m = min(duration(i), duration(i+1)) < default_s`
and `default_s` otherwise. -/
theorem crossfade_schedule_exact (tracks : List AudioTrack) (default_s : ℚ) :
    (calculate_crossfade_durations tracks default_s).length = tracks.length - 1 ∧
    ∀ i, i + 1 < tracks.length →
      (calculate_crossfade_durations tracks default_s).getD i 0 =
        (if min ((tracks.getD i defaultTrack).duration_s)
              ((tracks.getD (i+1) defaultTrack).duration_s) < default_s then
          max 1 (min ((tracks.getD i defaultTrack).duration_s)
              ((tracks.getD (i+1) defaultTrack).duration_s) * (1/2))
        else default_s) :=
  ⟨ccd_length tracks default_s, fun i h => ccd_getD tracks default_s i h⟩

/-- Witness for C2 at two 10s/12s tracks and a 2s default: one scheduled
duration, equal to the default. -/
theorem crossfade_schedule_exact_witness :
    (calculate_crossfade_durations [tr10, tr12] 2).length
        = ([tr10, tr12] : List AudioTrack).length - 1 ∧
    (0 + 1 < ([tr10, tr12] : List AudioTrack).length) ∧
    (calculate_crossfade_durations [tr10, tr12] 2).getD 0 0 = 2 := by
  refine ⟨(crossfade_schedule_exact [tr10, tr12] 2).1, by norm_num, ?_⟩
  have h := (crossfade_schedule_exact [tr10, tr12] 2).2 0 (by norm_num)
  rw [h]
  norm_num [tr10, tr12]

/-- Claim C1 is false as stated: with tracks of 0.5s and 10s and a 2s default
the scheduled value 1.0 exceeds `min(dur_0, dur_1) = 0.5`, and with two 10s
tracks and a 0.5s default the scheduled value is 0.5 < 1.0. -/
theorem crossfade_bounds_cex :
    min tA.duration_s tB.duration_s < (calculate_crossfade_durations [tA, tB] 2).getD 0 0 ∧
    (calculate_crossfade_durations [tB, tB] (1/2)).getD 0 0 < 1 := by
  constructor
  · norm_num [calculate_crossfade_durations, tA, tB]
  · norm_num [calculate_crossfade_durations, tB]

/-- Claim C1 (amended): when the requested default is at least 1.0 and every
track lasts at least 1.0s, every scheduled crossfade lies between 1.0 and the
minimum of the two adjacent durations. -/
theorem crossfade_bounds_amended (tracks : List AudioTrack) (default_s : ℚ)
    (hd : 1 ≤ default_s) (hdur : ∀ t ∈ tracks, 1 ≤ t.duration_s)
    (i : ℕ) (h : i + 1 < tracks.length) :
    1 ≤ (calculate_crossfade_durations tracks default_s).getD i 0 ∧
    (calculate_crossfade_durations tracks default_s).getD i 0 ≤
      min ((tracks.getD i defaultTrack).duration_s)
        ((tracks.getD (i+1) defaultTrack).duration_s) := by
  have hm1 : tracks.getD i defaultTrack ∈ tracks := getD_mem_of_lt _ _ _ (by omega)
  have hm2 : tracks.getD (i+1) defaultTrack ∈ tracks := getD_mem_of_lt _ _ _ h
  have hm : 1 ≤ min ((tracks.getD i defaultTrack).duration_s)
      ((tracks.getD (i+1) defaultTrack).duration_s) :=
    le_min (hdur _ hm1) (hdur _ hm2)
  rw [ccd_getD tracks default_s i h]
  split
  · refine ⟨le_max_left _ _, max_le hm ?_⟩
    linarith
  · exact ⟨hd, not_lt.mp (by assumption)⟩

/-- Witness for the amended C1 at two 10s/12s tracks with a 2s default. -/
theorem crossfade_bounds_amended_witness :
    1 ≤ (calculate_crossfade_durations [tr10, tr12] 2).getD 0 0 ∧
    (calculate_crossfade_durations [tr10, tr12] 2).getD 0 0 ≤
      min ((([tr10, tr12] : List AudioTrack).getD 0 defaultTrack).duration_s)
        ((([tr10, tr12] : List AudioTrack).getD 1 defaultTrack).duration_s) :=
  crossfade_bounds_amended [tr10, tr12] 2 (by norm_num)
    (by intro t ht
        simp only [List.mem_cons, List.mem_singleton, List.not_mem_nil, or_false] at ht
        rcases ht with h | h <;> subst h <;> norm_num [tr10, tr12])
    0 (by norm_num)

/-- Claim C8: the merge builder fails on an empty track list with the
zero-tracks contract-violation error (the spec's `ConfigurationError`,
realised in the source as `ValueError("Cannot merge zero tracks")`) and never
returns a command there; for every nonempty track list it returns a command
rather than raising that error. -/
theorem merge_zero_tracks_error (output_path : String) (cf : List ℚ)
    (tracks : List AudioTrack) (h : tracks ≠ []) :
    build_merge_command [] output_path cf
        = .error (.valueError "Cannot merge zero tracks") ∧
    ∃ cmd, build_merge_command tracks output_path cf = .ok cmd := by
  refine ⟨rfl, ?_⟩
  match tracks with
  | [t] => exact ⟨_, rfl⟩
  | t1 :: t2 :: rest => exact ⟨_, rfl⟩

/-- Witness for C8: a singleton track list yields a command. -/
theorem merge_zero_tracks_error_witness :
    (([tA] : List AudioTrack) ≠ []) ∧
    (build_merge_command [] "/out/merged_clean.wav" []
        = .error (.valueError "Cannot merge zero tracks") ∧
     ∃ cmd, build_merge_command [tA] "/out/merged_clean.wav" [] = .ok cmd) :=
  ⟨by simp, merge_zero_tracks_error "/out/merged_clean.wav" [] [tA] (by simp)⟩

theorem gytAux_map_fst (cf cur : ℚ) (ts : List AudioTrack) :
    (gytAux cf cur ts).map Prod.fst = offsetList cf cur ts := by
  induction ts generalizing cur with
  | nil => simp [gytAux, offsetList]
  | cons t rest ih =>
      cases rest with
      | nil => simp [gytAux, offsetList]
      | cons t2 r2 => simp [gytAux, offsetList, ih]

theorem gytAux_map_snd (cf cur : ℚ) (ts : List AudioTrack) :
    (gytAux cf cur ts).map Prod.snd = ts.map (fun t => clean_track_name t.filename) := by
  induction ts generalizing cur with
  | nil => simp [gytAux]
  | cons t rest ih =>
      cases rest with
      | nil => simp [gytAux]
      | cons t2 r2 => simp [gytAux, ih]

theorem gytAux_length (cf cur : ℚ) (ts : List AudioTrack) :
    (gytAux cf cur ts).length = ts.length := by
  induction ts generalizing cur with
  | nil => simp [gytAux]
  | cons t rest ih =>
      cases rest with
      | nil => simp [gytAux]
      | cons t2 r2 => simp [gytAux, ih]

theorem offsetList_getD (cf : ℚ) (ts : List AudioTrack) (cur : ℚ) (i : ℕ)
    (h : i + 1 < ts.length) :
    (offsetList cf cur ts).getD (i+1) 0 =
      (offsetList cf cur ts).getD i 0 + (ts.getD i defaultTrack).duration_s - cf := by
  induction ts generalizing cur i with
  | nil => simp at h
  | cons t rest ih =>
      cases i with
      | zero =>
          cases rest with
          | nil => simp at h
          | cons t2 r2 => simp [offsetList]
      | succ j =>
          have hj : j + 1 < rest.length := by simpa [Nat.succ_lt_succ_iff] using h
          simpa [offsetList] using ih (cur + t.duration_s - cf) j hj

theorem offsetList_chain (cf : ℚ) (ts : List AudioTrack) (cur : ℚ)
    (h : ∀ t ∈ ts.dropLast, cf ≤ t.duration_s) :
    List.Chain' (· ≤ ·) (offsetList cf cur ts) := by
  induction ts generalizing cur with
  | nil => simp [offsetList]
  | cons t rest ih =>
      cases rest with
      | nil => simp [offsetList]
      | cons t2 r2 =>
          have hd : cf ≤ t.duration_s := h t (by simp)
          have htl : ∀ u ∈ (t2 :: r2).dropLast, cf ≤ u.duration_s := by
            intro u hu
            exact h u (by simp [hu])
          have hrec := ih (cur + t.duration_s - cf) htl
          simp only [offsetList] at hrec ⊢
          rw [List.chain'_cons]
          exact ⟨by linarith, hrec⟩

/-- Claim C6: the analytical timestamps satisfy `offset[0] = 0` and
`offset[i+1] = offset[i] + duration[i] - crossfade` for every track list and
uniform crossfade (the witness instantiates the spec's 10/12/8 example). -/
theorem youtube_offsets_recurrence (tracks : List AudioTrack) (cf : ℚ) :
    ((generate_youtube_timestamps tracks cf).map Prod.fst).getD 0 0 = 0 ∧
    ∀ i, i + 1 < tracks.length →
      ((generate_youtube_timestamps tracks cf).map Prod.fst).getD (i+1) 0 =
        ((generate_youtube_timestamps tracks cf).map Prod.fst).getD i 0
          + (tracks.getD i defaultTrack).duration_s - cf := by
  rw [generate_youtube_timestamps, gytAux_map_fst]
  constructor
  · cases tracks <;> simp [offsetList]
  · exact fun i h => offsetList_getD cf tracks 0 i h

/-- Witness for C6: durations 10, 12, 8 with uniform crossfade 2 give offsets
0, 8, 18, and the recurrence applied at index 0. -/
theorem youtube_offsets_recurrence_witness :
    (generate_youtube_timestamps [tr10, tr12, tr8] 2).map Prod.fst = [0, 8, 18] ∧
    (0 + 1 < ([tr10, tr12, tr8] : List AudioTrack).length) ∧
    ((generate_youtube_timestamps [tr10, tr12, tr8] 2).map Prod.fst).getD (0+1) 0 =
      ((generate_youtube_timestamps [tr10, tr12, tr8] 2).map Prod.fst).getD 0 0
        + (([tr10, tr12, tr8] : List AudioTrack).getD 0 defaultTrack).duration_s - 2 := by
  refine ⟨?_, by norm_num,
    (youtube_offsets_recurrence [tr10, tr12, tr8] 2).2 0 (by norm_num)⟩
  norm_num [generate_youtube_timestamps, gytAux, tr10, tr12, tr8]

/-- Claim C7 is false as stated: a 1s track followed by a 10s track with a 2s
crossfade yields offsets `[0, -1]`, which are not monotonically
non-decreasing. -/
theorem timestamp_map_cex :
    (generate_youtube_timestamps [trShort, tB] 2).map Prod.fst = [0, -1] ∧
    ¬ List.Pairwise (· ≤ ·) ((generate_youtube_timestamps [trShort, tB] 2).map Prod.fst) := by
  have h : (generate_youtube_timestamps [trShort, tB] 2).map Prod.fst = [0, -1] := by
    norm_num [generate_youtube_timestamps, gytAux, trShort, tB]
  refine ⟨h, ?_⟩
  rw [h]
  intro hp
  have := List.rel_of_pairwise_cons hp (List.mem_singleton.mpr rfl)
  norm_num at this

/-- Claim C7 (amended): the timestamp map has exactly one (offset, cleaned
name) pair per track in order and starts at offset 0; provided the uniform
crossfade is at most the duration of every track but the last, the offsets are
monotonically non-decreasing. -/
theorem timestamp_map_amended (tracks : List AudioTrack) (cf : ℚ)
    (hcf : ∀ t ∈ tracks.dropLast, cf ≤ t.duration_s) :
    (generate_youtube_timestamps tracks cf).length = tracks.length ∧
    (generate_youtube_timestamps tracks cf).map Prod.snd
        = tracks.map (fun t => clean_track_name t.filename) ∧
    (tracks ≠ [] → ((generate_youtube_timestamps tracks cf).map Prod.fst).head? = some 0) ∧
    List.Pairwise (· ≤ ·) ((generate_youtube_timestamps tracks cf).map Prod.fst) := by
  refine ⟨gytAux_length cf 0 tracks, gytAux_map_snd cf 0 tracks, ?_, ?_⟩
  · intro hne
    rw [generate_youtube_timestamps, gytAux_map_fst]
    match tracks, hne with
    | t :: rest, _ => cases rest <;> simp [offsetList]
  · rw [generate_youtube_timestamps, gytAux_map_fst]
    exact List.chain'_iff_pairwise.mp (offsetList_chain cf tracks 0 hcf)

/-- Witness for the amended C7 at tracks of 10s and 12s with a 2s crossfade. -/
theorem timestamp_map_amended_witness :
    (generate_youtube_timestamps [tr10, tr12] 2).length
        = ([tr10, tr12] : List AudioTrack).length ∧
    (generate_youtube_timestamps [tr10, tr12] 2).map Prod.snd
        = ([tr10, tr12] : List AudioTrack).map (fun t => clean_track_name t.filename) ∧
    (([tr10, tr12] : List AudioTrack) ≠ [] →
      ((generate_youtube_timestamps [tr10, tr12] 2).map Prod.fst).head? = some 0) ∧
    List.Pairwise (· ≤ ·) ((generate_youtube_timestamps [tr10, tr12] 2).map Prod.fst) :=
  timestamp_map_amended [tr10, tr12] 2
    (by intro t ht
        simp only [List.dropLast] at ht
        simp only [List.mem_singleton] at ht
        subst ht
        norm_num [tr10])

theorem mem_insertSorted (x a : String) (l : List String) :
    x ∈ insertSorted a l ↔ x = a ∨ x ∈ l := by
  induction l with
  | nil => simp [insertSorted]
  | cons y ys ih =>
      simp only [insertSorted]
      split
      · simp
      · simp only [List.mem_cons, ih]
        tauto

theorem mem_sortStrings (x : String) (l : List String) :
    x ∈ sortStrings l ↔ x ∈ l := by
  induction l with
  | nil => simp [sortStrings]
  | cons y ys ih =>
      simp only [sortStrings, List.foldr_cons] at ih ⊢
      rw [mem_insertSorted, ih]
      simp

/-- Claim C5 is false as stated: manifest `{a.mp3, c.mp3}` against discovered
`{a.mp3, b.mp3}` raises a single error naming only the extraneous `c.mp3`; the
missing `b.mp3` is not named, because the extraneous-files check fires
first. -/
theorem ordering_validation_cex :
    validate_ordering ["a.mp3", "c.mp3"] ["a.mp3", "b.mp3"]
        = .error (.extraInOrder ["c.mp3"]) ∧
    ¬ namesFile (.extraInOrder ["c.mp3"]) "b.mp3" := by
  constructor
  · rfl
  · simp [namesFile]

/-- Claim C5 (amended): whenever the manifest contains an entry not among the
discovered files, validation fails with a single ValidationError whose message
names exactly the extraneous entries (sorted); missing discovered files are
not named by it, as the extraneous check raises first. -/
theorem ordering_extraneous_first (ordered available : List String)
    (hx : ∃ f, f ∈ ordered ∧ f ∉ available) :
    validate_ordering ordered available
        = .error (.extraInOrder
            (sortStrings (ordered.dedup.filter fun f => decide (f ∉ available)))) ∧
    ∀ f, namesFile (.extraInOrder
            (sortStrings (ordered.dedup.filter fun f => decide (f ∉ available)))) f ↔
          (f ∈ ordered ∧ f ∉ available) := by
  have hmem : ∀ f, f ∈ sortStrings (ordered.dedup.filter fun f => decide (f ∉ available)) ↔
      (f ∈ ordered ∧ f ∉ available) := by
    intro f
    rw [mem_sortStrings, List.mem_filter, List.mem_dedup]
    simp
  have hne : sortStrings (ordered.dedup.filter fun f => decide (f ∉ available)) ≠ [] := by
    obtain ⟨f0, hf0, hnf0⟩ := hx
    intro h0
    have := (hmem f0).mpr ⟨hf0, hnf0⟩
    rw [h0] at this
    simp at this
  refine ⟨?_, fun f => hmem f⟩
  simp only [validate_ordering]
  rw [if_pos hne]

/-- Witness for the amended C5 at the spec's own example. -/
theorem ordering_extraneous_first_witness :
    (∃ f, f ∈ ["a.mp3", "c.mp3"] ∧ f ∉ (["a.mp3", "b.mp3"] : List String)) ∧
    validate_ordering ["a.mp3", "c.mp3"] ["a.mp3", "b.mp3"]
        = .error (.extraInOrder
            (sortStrings ((["a.mp3", "c.mp3"] : List String).dedup.filter
              fun f => decide (f ∉ (["a.mp3", "b.mp3"] : List String))))) :=
  ⟨⟨"c.mp3", by simp, by simp⟩,
   (ordering_extraneous_first ["a.mp3", "c.mp3"] ["a.mp3", "b.mp3"]
      ⟨"c.mp3", by simp, by simp⟩).1⟩

theorem map_fst_replace (k : String) (v : OutputData) (l : List (String × OutputData)) :
    (l.map (fun p => if p.1 = k then (k, v) else p)).map Prod.fst = l.map Prod.fst := by
  induction l with
  | nil => simp
  | cons p r ih =>
      simp only [List.map_cons, ih, List.cons.injEq, and_true]
      split
      · simp only [*]
      · rfl

theorem filter_key_nil (k : String) (l : List (String × OutputData))
    (hk : ∀ p ∈ l, p.1 ≠ k) :
    l.filter (fun p => decide (p.1 = k)) = [] := by
  rw [List.filter_eq_nil_iff]
  intro p hp
  simpa using hk p hp

theorem filter_key_map_replace (k : String) (v : OutputData) (l : List (String × OutputData))
    (hnod : (l.map Prod.fst).Nodup) (hk : ∃ p ∈ l, p.1 = k) :
    (l.map (fun p => if p.1 = k then (k, v) else p)).filter (fun p => decide (p.1 = k))
      = [(k, v)] := by
  induction l with
  | nil => simp at hk
  | cons p r ih =>
      simp only [List.map_cons, List.nodup_cons] at hnod
      by_cases hp : p.1 = k
      · have hr : ∀ q ∈ r, q.1 ≠ k := by
          intro q hq hqk
          apply hnod.1
          have hmem : q.1 ∈ r.map Prod.fst := List.mem_map_of_mem Prod.fst hq
          rwa [hqk, ← hp] at hmem
        have hfil : (r.map (fun p => if p.1 = k then (k, v) else p)).filter
            (fun p => decide (p.1 = k)) = [] := by
          rw [List.filter_eq_nil_iff]
          intro x hx
          obtain ⟨q, hq, rfl⟩ := List.mem_map.mp hx
          rw [if_neg (hr q hq)]
          simpa using hr q hq
        simp [hp, hfil]
      · have hk' : ∃ q ∈ r, q.1 = k := by
          obtain ⟨q, hq, hqk⟩ := hk
          rcases List.mem_cons.mp hq with rfl | hqr
          · exact absurd hqk hp
          · exact ⟨q, hqr, hqk⟩
        simp only [List.map_cons, if_neg hp]
        rw [List.filter_cons_of_neg (by simpa using hp)]
        exact ih hnod.2 hk'

theorem dictInsert_count (k : String) (v : OutputData) (l : List (String × OutputData))
    (h : (l.map Prod.fst).Nodup) :
    ((dictInsert k v l).map Prod.fst).count k = 1 := by
  unfold dictInsert
  split
  · rw [map_fst_replace]
    have hk : k ∈ l.map Prod.fst := by
      have hany := ‹l.any (fun p => p.1 = k) = true›
      simp only [List.any_eq_true, decide_eq_true_eq] at hany
      obtain ⟨p, hp, hpk⟩ := hany
      exact hpk ▸ List.mem_map_of_mem Prod.fst hp
    exact List.count_eq_one_of_mem h hk
  · have hnk : (l.map Prod.fst).count k = 0 := by
      rw [List.count_eq_zero]
      intro hk
      have hany := ‹¬ l.any (fun p => p.1 = k) = true›
      apply hany
      simp only [List.any_eq_true, decide_eq_true_eq]
      obtain ⟨p, hp, hpk⟩ := List.mem_map.mp hk
      exact ⟨p, hp, hpk⟩
    rw [List.map_append, List.count_append, hnk]
    simp

theorem dictInsert_filter_key (k : String) (v : OutputData) (l : List (String × OutputData))
    (h : (l.map Prod.fst).Nodup) :
    (dictInsert k v l).filter (fun p => decide (p.1 = k)) = [(k, v)] := by
  unfold dictInsert
  split
  · apply filter_key_map_replace k v l h
    have hany := ‹l.any (fun p => p.1 = k) = true›
    simpa only [List.any_eq_true, decide_eq_true_eq] using hany
  · have hno : ∀ p ∈ l, p.1 ≠ k := by
      intro p hp hpk
      have hany := ‹¬ l.any (fun p => p.1 = k) = true›
      exact hany (by simp only [List.any_eq_true, decide_eq_true_eq]; exact ⟨p, hp, hpk⟩)
    rw [List.filter_append, filter_key_nil k l hno]
    simp

theorem filter_other_map_replace (k : String) (v : OutputData) (l : List (String × OutputData))
    (k' : String) (hne : k' ≠ k) :
    (l.map (fun p => if p.1 = k then (k, v) else p)).filter (fun p => decide (p.1 = k'))
      = l.filter (fun p => decide (p.1 = k')) := by
  induction l with
  | nil => simp
  | cons p r ih =>
      by_cases hp : p.1 = k
      · have hpk' : ¬ p.1 = k' := fun hc => hne (by rw [← hc, hp])
        simp only [List.map_cons, if_pos hp]
        rw [List.filter_cons_of_neg (by simpa using fun hc => hne hc.symm),
            List.filter_cons_of_neg (by simpa using hpk')]
        exact ih
      · simp only [List.map_cons, if_neg hp]
        by_cases hp' : p.1 = k'
        · rw [List.filter_cons_of_pos (by simpa using hp'),
              List.filter_cons_of_pos (by simpa using hp')]
          rw [ih]
        · rw [List.filter_cons_of_neg (by simpa using hp'),
              List.filter_cons_of_neg (by simpa using hp')]
          exact ih

theorem dictInsert_filter_other (k : String) (v : OutputData) (l : List (String × OutputData))
    (k' : String) (hne : k' ≠ k) :
    (dictInsert k v l).filter (fun p => decide (p.1 = k'))
      = l.filter (fun p => decide (p.1 = k')) := by
  unfold dictInsert
  split
  · exact filter_other_map_replace k v l k' hne
  · rw [List.filter_append]
    have h1 : ([(k, v)] : List (String × OutputData)).filter (fun p => decide (p.1 = k')) = [] := by
      simp [Ne.symm hne]
    rw [h1, List.append_nil]

/-- Claim C10: if the recorded path does not exist in the filesystem snapshot,
`add_output` leaves the ledger entirely unchanged and raises nothing; if it
exists, exactly one outputs entry is keyed by the given name afterwards,
carrying the file's 2-decimal mebibyte size and its sha256 digest from the
snapshot taken at that moment, with every other ledger field and every other
output key untouched. -/
theorem add_output_spec (fs : String → Option FileInfo) (m : ManifestData)
    (name path : String) (hkeys : (m.outputs.map Prod.fst).Nodup) :
    (fs path = none → add_output fs m name path = m) ∧
    ∀ fi, fs path = some fi →
      ((add_output fs m name path).outputs.map Prod.fst).count name = 1 ∧
      (add_output fs m name path).outputs.filter (fun p => decide (p.1 = name))
          = [(name, mkOutputData path fi)] ∧
      (mkOutputData path fi).file_size_mb = round2 ((fi.size_bytes : ℚ) / 1048576) ∧
      (mkOutputData path fi).sha256 = fi.sha256 ∧
      (∀ k, k ≠ name →
        (add_output fs m name path).outputs.filter (fun p => decide (p.1 = k))
          = m.outputs.filter (fun p => decide (p.1 = k))) ∧
      add_output fs m name path = { m with outputs := (add_output fs m name path).outputs } := by
  constructor
  · intro h
    simp [add_output, h]
  · intro fi hfi
    have hout : (add_output fs m name path).outputs
        = dictInsert name (mkOutputData path fi) m.outputs := by
      simp [add_output, hfi]
    refine ⟨?_, ?_, rfl, rfl, ?_, ?_⟩
    · rw [hout]
      exact dictInsert_count name (mkOutputData path fi) m.outputs hkeys
    · rw [hout]
      exact dictInsert_filter_key name (mkOutputData path fi) m.outputs hkeys
    · intro k hk
      rw [hout]
      exact dictInsert_filter_other name (mkOutputData path fi) m.outputs k hk
    · have hall : add_output fs m name path
          = { m with outputs := dictInsert name (mkOutputData path fi) m.outputs } := by
        simp [add_output, hfi]
      rw [hall]

/-- Witness for C10: recording an existing 1 MiB file in an empty ledger. -/
theorem add_output_spec_witness :
    ((add_output fs0 m0 "merged_clean" "/out/merged_clean.wav").outputs.map Prod.fst).count
        "merged_clean" = 1 ∧
    (add_output fs0 m0 "merged_clean" "/out/merged_clean.wav").outputs.filter
        (fun p => decide (p.1 = "merged_clean"))
      = [("merged_clean", mkOutputData "/out/merged_clean.wav" ⟨1048576, "d00d", none⟩)] ∧
    (mkOutputData "/out/merged_clean.wav" (⟨1048576, "d00d", none⟩ : FileInfo)).file_size_mb
        = round2 (((1048576 : ℕ) : ℚ) / 1048576) ∧
    (add_output fs0 m0 "missing" "/out/nope.wav") = m0 := by
  have h := add_output_spec fs0 m0 "merged_clean" "/out/merged_clean.wav" (by simp [m0])
  have h2 := h.2 ⟨1048576, "d00d", none⟩ rfl
  have h3 := add_output_spec fs0 m0 "missing" "/out/nope.wav" (by simp [m0])
  exact ⟨h2.1, h2.2.1, h2.2.2.1, h3.1 rfl⟩

theorem tempoSteps_low_step (t : ℚ) (h0 : 0 < t) (h : t < 1/2) :
    tempoSteps t = .half :: tempoSteps (2 * t) := by
  rw [tempoSteps]
  rw [if_pos ⟨h0, h⟩]

theorem tempoSteps_high_step (t : ℚ) (h : 2 < t) :
    tempoSteps t = .double :: tempoSteps (t / 2) := by
  rw [tempoSteps]
  rw [if_neg (by rintro ⟨-, h2⟩; linarith), if_pos h]

theorem tempoSteps_mid (t : ℚ) (h1 : ¬ t < 1/2) (h2 : ¬ 2 < t) (h3 : t ≠ 1) :
    tempoSteps t = [.residual (round3 t)] := by
  rw [tempoSteps]
  rw [if_neg (by rintro ⟨-, hl⟩; exact h1 hl), if_neg h2, if_pos h3]

theorem tempoSteps_low_shape (n : ℕ) :
    ∀ t : ℚ, 0 < t → t < 1/2 → 1/2 ≤ 2 ^ n * t →
      ∃ k, 1 ≤ k ∧
        tempoSteps t = List.replicate k .half ++ [.residual (round3 (2 ^ k * t))] ∧
        1/2 ≤ 2 ^ k * t ∧ 2 ^ k * t < 1 := by
  induction n with
  | zero =>
      intro t h0 h1 hb
      norm_num at hb
      linarith
  | succ n ih =>
      intro t h0 h1 hb
      by_cases h2 : 2 * t < 1/2
      · obtain ⟨k, hk1, hkeq, hkb1, hkb2⟩ := ih (2*t) (by linarith) h2
          (by
            have he : (2:ℚ) ^ n * (2 * t) = 2 ^ (n+1) * t := by ring
            rw [he]
            exact hb)
        have he2 : (2:ℚ) ^ k * (2 * t) = 2 ^ (k+1) * t := by ring
        refine ⟨k + 1, by omega, ?_, ?_, ?_⟩
        · rw [tempoSteps_low_step t h0 h1, hkeq, he2, List.replicate_succ]
          rfl
        · rw [← he2]; exact hkb1
        · rw [← he2]; exact hkb2
      · have h2t : 1/2 ≤ 2 * t := not_lt.mp h2
        have h2t2 : 2 * t < 1 := by linarith
        refine ⟨1, le_refl 1, ?_, by norm_num; linarith, by norm_num; linarith⟩
        rw [tempoSteps_low_step t h0 h1,
            tempoSteps_mid (2*t) (by linarith) (by linarith) (by intro hc; rw [hc] at h2t2; norm_num at h2t2)]
        norm_num

theorem tempoSteps_high_shape (n : ℕ) :
    ∀ t : ℚ, 2 < t → t / 2 ^ n ≤ 2 →
      ∃ k, 1 ≤ k ∧
        tempoSteps t = List.replicate k .double ++ [.residual (round3 (t / 2 ^ k))] ∧
        1 < t / 2 ^ k ∧ t / 2 ^ k ≤ 2 := by
  induction n with
  | zero =>
      intro t h0 hb
      norm_num at hb
      linarith
  | succ n ih =>
      intro t h0 hb
      by_cases h2 : 2 < t / 2
      · obtain ⟨k, hk1, hkeq, hkb1, hkb2⟩ := ih (t/2) h2
          (by
            have he : t / 2 / 2 ^ n = t / 2 ^ (n+1) := by
              rw [div_div, ← pow_succ']
            rw [he]
            exact hb)
        have he2 : t / 2 / 2 ^ k = t / 2 ^ (k+1) := by
          rw [div_div, ← pow_succ']
        refine ⟨k + 1, by omega, ?_, ?_, ?_⟩
        · rw [tempoSteps_high_step t h0, hkeq, he2, List.replicate_succ]
          rfl
        · rw [← he2]; exact hkb1
        · rw [← he2]; exact hkb2
      · have h2t : t / 2 ≤ 2 := not_lt.mp h2
        have h2t1 : 1 < t / 2 := by linarith
        refine ⟨1, le_refl 1, ?_, by rw [pow_one]; exact h2t1, by rw [pow_one]; exact h2t⟩
        rw [tempoSteps_high_step t h0,
            tempoSteps_mid (t/2) (by linarith) (by linarith) (by linarith)]
        rw [pow_one]
        rfl

/-- Claim C4 is false as stated: for requested factor 0.3333 the emitted chain
is one 0.5x node plus a residual formatted to 3 decimals (0.667), whose
cumulative product 0.3335 misses the requested factor by 0.0002 — far beyond
binary floating rounding (the decomposition itself is exact in binary). -/
theorem tempo_decomposition_cex :
    tempoSteps (3333/10000 : ℚ) = [.half, .residual (667/1000)] ∧
    ((tempoSteps (3333/10000 : ℚ)).map stepCoeff).prod = 667/2000 ∧
    ((tempoSteps (3333/10000 : ℚ)).map stepCoeff).prod ≠ 3333/10000 ∧
    (667/2000 : ℚ) - 3333/10000 = 1/5000 := by
  have e1 : (2 : ℚ) * (3333/10000) = 3333/5000 := by norm_num
  have h1 := tempoSteps_low_step (3333/10000) (by norm_num) (by norm_num)
  rw [e1] at h1
  have h2 := tempoSteps_mid (3333/5000 : ℚ) (by norm_num) (by norm_num) (by norm_num)
  have e2 : round3 (3333/5000 : ℚ) = 667/1000 := by
    unfold round3
    norm_num [round_eq]
  rw [h2, e2] at h1
  refine ⟨h1, ?_, ?_, by norm_num⟩
  · rw [h1]
    simp [stepCoeff]
    norm_num
  · rw [h1]
    simp [stepCoeff]
    norm_num

/-- Claim C4 (amended): for every positive requested factor outside
[0.5, 2.0], the chain consists of `k ≥ 1` boundary-ratio nodes followed by
exactly one residual node whose coefficient is the into-range remainder
rounded to 3 decimal places; the cumulative product is
`boundary^k * round3(remainder)`, which equals the requested factor exactly
whenever the remainder has at most 3 decimals; in particular factor 0.25
yields exactly two 0.5x nodes with exact cumulative product 0.25. -/
theorem tempo_decomposition_amended (t : ℚ) (h0 : 0 < t) (hout : t < 1/2 ∨ 2 < t) :
    (∃ k r, 1 ≤ k ∧ r = (if t < 1/2 then 2 ^ k * t else t / 2 ^ k) ∧
      tempoSteps t
        = List.replicate k (if t < 1/2 then TempoStep.half else TempoStep.double)
            ++ [.residual (round3 r)] ∧
      ((tempoSteps t).map stepCoeff).prod
        = (if t < 1/2 then (1/2 : ℚ) ^ k else 2 ^ k) * round3 r ∧
      (round3 r = r → ((tempoSteps t).map stepCoeff).prod = t)) ∧
    tempoSteps (1/4 : ℚ) = [.half, .residual (1/2)] ∧
    ((tempoSteps (1/4 : ℚ)).map stepCoeff).prod = 1/4 := by
  have hq : tempoSteps (1/4 : ℚ) = [.half, .residual (1/2)] := by
    have e1 : (2 : ℚ) * (1/4) = 1/2 := by norm_num
    have h1 := tempoSteps_low_step (1/4) (by norm_num) (by norm_num)
    rw [e1] at h1
    have h2 := tempoSteps_mid (1/2 : ℚ) (by norm_num) (by norm_num) (by norm_num)
    have e2 : round3 (1/2 : ℚ) = 1/2 := by
      unfold round3
      norm_num [round_eq]
    rw [h2, e2] at h1
    exact h1
  refine ⟨?_, hq, by rw [hq]; simp [stepCoeff]; norm_num⟩
  rcases hout with hlow | hhigh
  · obtain ⟨n, hn⟩ := pow_unbounded_of_one_lt (1/(2*t)) (by norm_num : (1:ℚ) < 2)
    have hb : 1/2 ≤ 2 ^ n * t := by
      have h2t : 0 < 2 * t := by linarith
      rw [div_lt_iff h2t] at hn
      nlinarith
    obtain ⟨k, hk1, hkeq, hkb1, hkb2⟩ := tempoSteps_low_shape n t h0 hlow hb
    refine ⟨k, 2 ^ k * t, hk1, by rw [if_pos hlow], by rw [if_pos hlow]; exact hkeq, ?_, ?_⟩
    · rw [if_pos hlow, hkeq]
      simp only [List.map_append, List.map_replicate, List.map_cons, List.map_nil,
        List.prod_append, List.prod_replicate, List.prod_cons, List.prod_nil, stepCoeff]
      ring
    · intro hr
      rw [hkeq]
      simp only [List.map_append, List.map_replicate, List.map_cons, List.map_nil,
        List.prod_append, List.prod_replicate, List.prod_cons, List.prod_nil, stepCoeff]
      rw [hr]
      rw [div_pow, one_pow]
      field_simp
  · obtain ⟨n, hn⟩ := pow_unbounded_of_one_lt (t/2) (by norm_num : (1:ℚ) < 2)
    have hb : t / 2 ^ n ≤ 2 := by
      have hp : (0:ℚ) < 2 ^ n := by positivity
      rw [div_le_iff hp]
      rw [div_lt_iff (by norm_num : (0:ℚ) < 2)] at hn
      linarith
    obtain ⟨k, hk1, hkeq, hkb1, hkb2⟩ := tempoSteps_high_shape n t hhigh hb
    have hnl : ¬ t < 1/2 := by linarith
    refine ⟨k, t / 2 ^ k, hk1, by rw [if_neg hnl], by rw [if_neg hnl]; exact hkeq, ?_, ?_⟩
    · rw [if_neg hnl, hkeq]
      simp only [List.map_append, List.map_replicate, List.map_cons, List.map_nil,
        List.prod_append, List.prod_replicate, List.prod_cons, List.prod_nil, stepCoeff]
      ring
    · intro hr
      rw [hkeq]
      simp only [List.map_append, List.map_replicate, List.map_cons, List.map_nil,
        List.prod_append, List.prod_replicate, List.prod_cons, List.prod_nil, stepCoeff]
      rw [hr]
      field_simp

/-- Witness for the amended C4 at requested factor 0.25. -/
theorem tempo_decomposition_amended_witness :
    (∃ k r, 1 ≤ k ∧ r = (if (1/4 : ℚ) < 1/2 then 2 ^ k * (1/4 : ℚ) else (1/4 : ℚ) / 2 ^ k) ∧
      tempoSteps (1/4 : ℚ)
        = List.replicate k (if (1/4 : ℚ) < 1/2 then TempoStep.half else TempoStep.double)
            ++ [.residual (round3 r)] ∧
      ((tempoSteps (1/4 : ℚ)).map stepCoeff).prod
        = (if (1/4 : ℚ) < 1/2 then (1/2 : ℚ) ^ k else 2 ^ k) * round3 r ∧
      (round3 r = r → ((tempoSteps (1/4 : ℚ)).map stepCoeff).prod = 1/4)) ∧
    tempoSteps (1/4 : ℚ) = [.half, .residual (1/2)] ∧
    ((tempoSteps (1/4 : ℚ)).map stepCoeff).prod = 1/4 :=
  tempo_decomposition_amended (1/4) (by norm_num) (Or.inl (by norm_num))

theorem string_data_append (a b : String) : (a ++ b).data = a.data ++ b.data := rfl

theorem head_bracket_ne (s : String) (h : s.data.head? = some '[') : s ≠ "-i" := by
  intro he
  subst he
  simp at h

theorem data_head_append (a b : String) :
    (a ++ b).data.head? = a.data.head?.or b.data.head? := by
  rw [string_data_append]
  cases h : a.data <;> simp [h]

theorem bracketed_head (l : SLabel) : (bracketed l).data.head? = some '[' := by
  show (("[" ++ SLabel.render l) ++ "]").data.head? = some '['
  rw [data_head_append, data_head_append]
  rfl

theorem render_head (n : FilterNode) (l : SLabel) (rest : List SLabel)
    (h : n.inputs = l :: rest) : n.render.data.head? = some '[' := by
  rw [FilterNode.render, h, List.map_cons]
  show ((bracketed l ++ concatStrings (rest.map bracketed)) ++ n.filter
      ++ bracketed n.output).data.head? = some '['
  rw [data_head_append, data_head_append, data_head_append, bracketed_head]
  rfl

theorem renderGraph_head (n0 : FilterNode) (rest : List FilterNode) (l : SLabel)
    (li : List SLabel) (hin : n0.inputs = l :: li) :
    (renderGraph (n0 :: rest)).data.head? = some '[' := by
  cases rest with
  | nil => exact render_head n0 l li hin
  | cons r rs =>
      show ((n0.render ++ ";") ++ renderGraph (r :: rs)).data.head? = some '['
      rw [data_head_append, data_head_append, render_head n0 l li hin]
      rfl

theorem flatten_map_singleton {α β : Type} (f : α → β) (l : List α) :
    (l.map fun x => [f x]).flatten = l.map f := by
  induction l with
  | nil => rfl
  | cons x xs ih => simp [ih]

theorem consumed_append (a b : List FilterNode) :
    consumedLabels (a ++ b) = consumedLabels a ++ consumedLabels b := by
  simp [consumedLabels]

theorem consumed_norm (n : ℕ) :
    consumedLabels (mergeNormNodes n) = (List.range n).map SLabel.inA := by
  unfold consumedLabels mergeNormNodes
  rw [List.map_map]
  exact flatten_map_singleton _ _

theorem consumed_cross (n : ℕ) (cf : List ℚ) :
    consumedLabels (mergeCrossfadeNodes n cf)
      = ((List.range (n-1)).map fun i => [mergeCur i, SLabel.norm (i+1)]).flatten := by
  unfold consumedLabels mergeCrossfadeNodes
  rw [List.map_map]
  rfl

theorem mem_consumed_mergeGraph (n : ℕ) (cf : List ℚ) (l : SLabel) :
    l ∈ consumedLabels (mergeGraph n cf) ↔
      (∃ i, i < n ∧ l = .inA i) ∨ (∃ i, i < n - 1 ∧ (l = mergeCur i ∨ l = .norm (i+1))) := by
  unfold mergeGraph
  rw [consumed_append, consumed_norm, consumed_cross, List.mem_append]
  constructor
  · rintro (h | h)
    · obtain ⟨i, hi, rfl⟩ := List.mem_map.mp h
      exact Or.inl ⟨i, List.mem_range.mp hi, rfl⟩
    · rw [List.mem_flatten] at h
      obtain ⟨xs, hxs, hl⟩ := h
      obtain ⟨i, hi, rfl⟩ := List.mem_map.mp hxs
      simp only [List.mem_cons, List.mem_singleton, List.not_mem_nil, or_false] at hl
      exact Or.inr ⟨i, List.mem_range.mp hi, hl⟩
  · rintro (⟨i, hi, rfl⟩ | ⟨i, hi, hl⟩)
    · exact Or.inl (List.mem_map_of_mem _ (List.mem_range.mpr hi))
    · refine Or.inr (List.mem_flatten.mpr ⟨[mergeCur i, SLabel.norm (i+1)], ?_, ?_⟩)
      · exact List.mem_map_of_mem _ (List.mem_range.mpr hi)
      · rcases hl with rfl | rfl <;> simp

theorem terminal_merge (m : ℕ) (cf : List ℚ) :
    terminalLabels (mergeGraph (m+2) cf) = [.acc (m+1)] := by
  unfold terminalLabels
  have houts : (mergeGraph (m+2) cf).map FilterNode.output
      = (List.range (m+2)).map SLabel.norm
        ++ (List.range (m+1)).map (fun i => SLabel.acc (i+1)) := by
    unfold mergeGraph mergeNormNodes mergeCrossfadeNodes
    simp only [List.map_append, List.map_map]
    rfl
  rw [houts, List.filter_append]
  have h1 : ((List.range (m+2)).map SLabel.norm).filter
      (fun l => decide (l ∉ consumedLabels (mergeGraph (m+2) cf))) = [] := by
    rw [List.filter_eq_nil_iff]
    intro l hl
    obtain ⟨j, hj, rfl⟩ := List.mem_map.mp hl
    have hjlt : j < m + 2 := List.mem_range.mp hj
    simp only [decide_eq_true_eq, not_not]
    rw [mem_consumed_mergeGraph]
    right
    rcases j with _ | j'
    · exact ⟨0, by omega, Or.inl (by simp [mergeCur])⟩
    · exact ⟨j', by omega, Or.inr rfl⟩
  rw [h1, List.nil_append]
  rw [show List.range (m+1) = List.range m ++ [m] from List.range_succ m]
  rw [List.map_append, List.filter_append]
  have h2 : ((List.range m).map (fun i => SLabel.acc (i+1))).filter
      (fun l => decide (l ∉ consumedLabels (mergeGraph (m+2) cf))) = [] := by
    rw [List.filter_eq_nil_iff]
    intro l hl
    obtain ⟨j, hj, rfl⟩ := List.mem_map.mp hl
    have hjlt : j < m := List.mem_range.mp hj
    simp only [decide_eq_true_eq, not_not]
    rw [mem_consumed_mergeGraph]
    right
    refine ⟨j+1, by omega, Or.inl ?_⟩
    simp [mergeCur]
  rw [h2, List.nil_append]
  have h3 : SLabel.acc (m+1) ∉ consumedLabels (mergeGraph (m+2) cf) := by
    rw [mem_consumed_mergeGraph]
    rintro (⟨i, hi, h⟩ | ⟨i, hi, (h | h)⟩)
    · simp at h
    · rw [mergeCur] at h
      rcases Nat.eq_zero_or_pos i with rfl | hipos
      · simp at h
      · rw [if_neg (by omega)] at h
        simp only [SLabel.acc.injEq] at h
        omega
    · simp at h
  simp [h3]

theorem mergeGraph_cons (m : ℕ) (cf : List ℚ) :
    mergeGraph (m+2) cf
      = (⟨[.inA 0], "loudnorm=I=-20:TP=-1.5:LRA=11", .norm 0⟩ : FilterNode)
          :: (((List.range (m+1)).map Nat.succ).map
                (fun i => (⟨[.inA i], "loudnorm=I=-20:TP=-1.5:LRA=11",
                  .norm i⟩ : FilterNode))
              ++ mergeCrossfadeNodes (m+2) cf) := by
  rw [mergeGraph, mergeNormNodes, List.range_succ_eq_map, List.map_cons, List.cons_append]

theorem count_i_flatten (ts : List AudioTrack) (h : "-i" ∉ ts.map AudioTrack.path) :
    ((ts.map fun t => ["-i", t.path]).flatten).count "-i" = ts.length := by
  induction ts with
  | nil => rfl
  | cons t r ih =>
      simp only [List.map_cons, List.mem_cons, not_or] at h
      simp only [List.map_cons, List.flatten_cons, List.cons_append, List.count_cons,
        List.count_append]
      rw [ih h.2]
      have hne : ¬ (t.path == "-i") = true := by
        simp only [beq_iff_eq]
        exact fun hc => h.1 (hc ▸ rfl)
      simp [hne]

/-- Claim C3: for every nonempty track list (whose paths do not collide with
the literal flag `"-i"`), the merge builder returns a command declaring
exactly N input streams; for N ≥ 2 its filter graph has exactly one terminal
(produced-but-unconsumed) output label, `a{N-1}`, the one `-map` references;
and a second call with identical arguments yields byte-identical text (the
builder is a pure function of its arguments). -/
theorem merge_command_inputs_terminal_det (tracks : List AudioTrack) (output_path : String)
    (cf : List ℚ) (hne : tracks ≠ [])
    (hpath : "-i" ∉ tracks.map AudioTrack.path) (hout : output_path ≠ "-i") :
    ∃ cmd, build_merge_command tracks output_path cf = .ok cmd ∧
      cmd.count "-i" = tracks.length ∧
      (2 ≤ tracks.length →
        terminalLabels (mergeGraph tracks.length cf) = [.acc (tracks.length - 1)]) ∧
      build_merge_command tracks output_path cf = build_merge_command tracks output_path cf := by
  match tracks, hne with
  | [t], _ =>
      refine ⟨_, rfl, ?_, by intro hc; simp at hc, rfl⟩
      simp only [List.map_cons, List.map_nil, List.mem_cons, List.not_mem_nil, not_or] at hpath
      have hp : ¬ (t.path == "-i") = true := by
        simp only [beq_iff_eq]
        exact fun hc => hpath.1 (hc ▸ rfl)
      have ho : ¬ (output_path == "-i") = true := by
        simp only [beq_iff_eq]
        exact hout
      simp [List.count_cons, hp, ho]
  | t1 :: t2 :: rest, _ =>
      refine ⟨_, rfl, ?_, ?_, rfl⟩
      · have hlen : (t1 :: t2 :: rest).length = rest.length + 2 := by simp
        have hG : renderGraph (mergeGraph (t1 :: t2 :: rest).length cf) ≠ "-i" := by
          rw [hlen, mergeGraph_cons rest.length cf]
          exact head_bracket_ne _ (renderGraph_head _ _ (.inA 0) [] rfl)
        have hM : bracketed (mergeCur ((t1 :: t2 :: rest).length - 1)) ≠ "-i" :=
          head_bracket_ne _ (bracketed_head _)
        have hGb : ¬ (renderGraph (mergeGraph (t1 :: t2 :: rest).length cf) == "-i") = true := by
          simpa only [beq_iff_eq] using hG
        have hMb : ¬ (bracketed (mergeCur ((t1 :: t2 :: rest).length - 1)) == "-i") = true := by
          simpa only [beq_iff_eq] using hM
        have hob : ¬ (output_path == "-i") = true := by
          simpa only [beq_iff_eq] using hout
        simp only [List.count_append, List.count_cons, List.count_nil,
          count_i_flatten (t1 :: t2 :: rest) hpath, hGb, hMb, hob]
        simp
      · intro _
        have hlen : (t1 :: t2 :: rest).length = rest.length + 2 := by simp
        rw [hlen]
        have : rest.length + 2 - 1 = rest.length + 1 := by omega
        rw [this]
        exact terminal_merge rest.length cf

/-- Witness for C3 at two tracks, an output path, and a crossfade plan of one
2-second entry. -/
theorem merge_command_inputs_terminal_det_witness :
    (([tr10, tr12] : List AudioTrack) ≠ []) ∧
    ("-i" ∉ ([tr10, tr12] : List AudioTrack).map AudioTrack.path) ∧
    ("/out/merged_clean.wav" ≠ "-i") ∧
    ∃ cmd, build_merge_command [tr10, tr12] "/out/merged_clean.wav" [2] = .ok cmd ∧
      cmd.count "-i" = ([tr10, tr12] : List AudioTrack).length ∧
      (2 ≤ ([tr10, tr12] : List AudioTrack).length →
        terminalLabels (mergeGraph ([tr10, tr12] : List AudioTrack).length [2])
          = [.acc (([tr10, tr12] : List AudioTrack).length - 1)]) ∧
      build_merge_command [tr10, tr12] "/out/merged_clean.wav" [2]
        = build_merge_command [tr10, tr12] "/out/merged_clean.wav" [2] :=
  ⟨by simp, by simp [tr10, tr12], by simp,
   merge_command_inputs_terminal_det [tr10, tr12] "/out/merged_clean.wav" [2]
     (by simp) (by simp [tr10, tr12]) (by simp)⟩

theorem tempoNodesAux_outputs (steps : List TempoStep) :
    ∀ cur, (tempoNodesAux cur steps).map FilterNode.output = steps.map stepLabel := by
  induction steps with
  | nil => intro cur; rfl
  | cons s rest ih => intro cur; simp [tempoNodesAux, ih]

theorem drumsNode_output (c : PipelineConfig) : (drumsNode c).output = .txt "drums" := by
  unfold drumsNode
  split <;> dsimp only [] <;> split <;> rfl

theorem tempo_labels (t : ℚ) (h1 : 1/4 ≤ t) (h2 : t ≤ 4) (hne : t ≠ 1) :
    (tempoSteps t).map stepLabel =
      if t < 1/2 ∨ 2 < t then [SLabel.txt "tempo_intermediate", SLabel.txt "tempo"]
      else [SLabel.txt "tempo"] := by
  by_cases hlow : t < 1/2
  · rw [if_pos (Or.inl hlow)]
    rw [tempoSteps_low_step t (by linarith) hlow,
        tempoSteps_mid (2*t) (by intro hc; linarith) (by intro hc; linarith)
          (by intro hc; apply hlow.not_le; linarith)]
    rfl
  · by_cases hhigh : 2 < t
    · rw [if_pos (Or.inr hhigh)]
      rw [tempoSteps_high_step t hhigh,
          tempoSteps_mid (t/2) (by intro hc; linarith) (by intro hc; linarith)
            (by intro hc
                have : t = 2 := by linarith [hc]
                linarith)]
      rfl
    · rw [if_neg (by rintro (hc | hc) <;> [exact hlow hc; exact hhigh hc])]
      rw [tempoSteps_mid t hlow hhigh hne]
      rfl

theorem mergeGraph_outputs (n : ℕ) (cf : List ℚ) :
    (mergeGraph n cf).map FilterNode.output
      = (List.range n).map SLabel.norm
        ++ (List.range (n-1)).map (fun i => SLabel.acc (i+1)) := by
  unfold mergeGraph mergeNormNodes mergeCrossfadeNodes
  simp only [List.map_append, List.map_map]
  rfl

theorem lofi_outputs (c : PipelineConfig) :
    (lofiFilterNodes c).map FilterNode.output
      = (if c.texture.isSome then [SLabel.txt "texture"] else [])
        ++ (if c.drums.isSome then [SLabel.txt "drums"] else [])
        ++ (if c.texture.isSome || c.drums.isSome then
              ((if c.texture.isSome then [SLabel.txt "texture_vol"] else [])
                ++ (if c.drums.isSome then [SLabel.txt "drums_vol"] else []))
                ++ [SLabel.txt "mixed"]
            else [])
        ++ (if c.tempo_factor ≠ 1 then (tempoSteps c.tempo_factor).map stepLabel else [])
        ++ [SLabel.txt "hp", SLabel.txt "lp"]
        ++ (if c.enable_reverb then [SLabel.txt "reverb"] else [])
        ++ (if c.enable_saturation then [SLabel.txt "sat"] else [])
        ++ (if c.enable_compression then [SLabel.txt "comp"] else [])
        ++ [SLabel.txt "out"] := by
  unfold lofiFilterNodes
  simp only [List.map_append, apply_ite (List.map FilterNode.output), List.map_cons,
    List.map_nil, tempoNodesAux_outputs, drumsNode_output, textureNode]

/-- Claim C9 is false as stated: with tempo factor 0.2 the two boundary nodes
of the aesthetic chain both declare the output label `tempo_intermediate`, so
a node's output label is redeclared by a later node. -/
theorem graph_labels_cex :
    ¬ ((lofiFilterNodes cfgTempoSmall).map FilterNode.output).Nodup := by
  have e1 : (2:ℚ) * (1/5) = 2/5 := by norm_num
  have e2 : (2:ℚ) * (2/5) = 4/5 := by norm_num
  have h1 : tempoSteps (1/5 : ℚ) = [.half, .half, .residual (round3 (4/5))] := by
    rw [tempoSteps_low_step (1/5) (by norm_num) (by norm_num), e1,
        tempoSteps_low_step (2/5) (by norm_num) (by norm_num), e2,
        tempoSteps_mid (4/5 : ℚ) (by norm_num) (by norm_num) (by norm_num)]
  rw [lofi_outputs]
  norm_num [cfgTempoSmall, cfgDefault, h1, stepLabel]

/-- Claim C9 (amended): in the merge graph (N ≥ 2) every node's output label
is fresh and the final node's output `a{N-1}` is the single terminal label;
in the aesthetic chain the same freshness holds provided the tempo
decomposition emits at most one boundary node (factor in [0.25, 4]), and the
final limiter's `out` label is the chain's terminal; with more than one
boundary node the label `tempo_intermediate` is reused (each occurrence
consumed by the next node before being redeclared). -/
theorem graph_labels_amended (n : ℕ) (cf : List ℚ) (c : PipelineConfig)
    (hn : 2 ≤ n) (ht1 : 1/4 ≤ c.tempo_factor) (ht2 : c.tempo_factor ≤ 4) :
    ((mergeGraph n cf).map FilterNode.output).Nodup ∧
    ((mergeGraph n cf).map FilterNode.output).getLast? = some (.acc (n-1)) ∧
    terminalLabels (mergeGraph n cf) = [.acc (n-1)] ∧
    ((lofiFilterNodes c).map FilterNode.output).Nodup ∧
    ((lofiFilterNodes c).map FilterNode.output).getLast? = some (.txt "out") := by
  obtain ⟨m, rfl⟩ : ∃ m, n = m + 2 := ⟨n - 2, by omega⟩
  refine ⟨?_, ?_, ?_, ?_, ?_⟩
  · rw [mergeGraph_outputs]
    apply List.Nodup.append
    · exact List.Nodup.map (fun a b h => by injection h) (List.nodup_range _)
    · exact List.Nodup.map (fun a b h => by injection h with h'; omega) (List.nodup_range _)
    · intro l hl1 hl2
      obtain ⟨i, _, rfl⟩ := List.mem_map.mp hl1
      obtain ⟨j, _, hj⟩ := List.mem_map.mp hl2
      simp at hj
  · rw [mergeGraph_outputs,
        show List.range (m+2-1) = List.range m ++ [m] from List.range_succ m,
        List.map_append, ← List.append_assoc]
    rw [show ([m].map fun i => SLabel.acc (i+1)) = [SLabel.acc (m+1)] from rfl]
    rw [List.getLast?_concat]
    norm_num
  · rw [show m + 2 - 1 = m + 1 by omega]
    exact terminal_merge m cf
  · rw [lofi_outputs]
    by_cases ht : c.tempo_factor = 1
    · have htempo : (if c.tempo_factor ≠ 1 then
            (tempoSteps c.tempo_factor).map stepLabel else []) = [] := by
        rw [if_neg]
        simpa using ht
      rw [htempo]
      rcases htex : c.texture with _ | ptex <;> rcases hdr : c.drums with _ | pdr <;>
        rcases hrev : c.enable_reverb <;> rcases hsat : c.enable_saturation <;>
        rcases hcomp : c.enable_compression <;>
        simp only [Option.isSome_some, Option.isSome_none] <;> decide
    · have htempo : (if c.tempo_factor ≠ 1 then
            (tempoSteps c.tempo_factor).map stepLabel else [])
          = (tempoSteps c.tempo_factor).map stepLabel := if_pos ht
      rw [htempo, tempo_labels c.tempo_factor ht1 ht2 ht]
      by_cases hio : (c.tempo_factor < 1/2 ∨ 2 < c.tempo_factor)
      · have hlist : (if (c.tempo_factor < 1/2 ∨ 2 < c.tempo_factor) then
              [SLabel.txt "tempo_intermediate", SLabel.txt "tempo"]
            else [SLabel.txt "tempo"])
            = [SLabel.txt "tempo_intermediate", SLabel.txt "tempo"] := if_pos hio
        rw [hlist]
        rcases htex : c.texture with _ | ptex <;> rcases hdr : c.drums with _ | pdr <;>
          rcases hrev : c.enable_reverb <;> rcases hsat : c.enable_saturation <;>
          rcases hcomp : c.enable_compression <;>
          simp only [Option.isSome_some, Option.isSome_none] <;> decide
      · have hlist : (if (c.tempo_factor < 1/2 ∨ 2 < c.tempo_factor) then
              [SLabel.txt "tempo_intermediate", SLabel.txt "tempo"]
            else [SLabel.txt "tempo"])
            = [SLabel.txt "tempo"] := if_neg hio
        rw [hlist]
        rcases htex : c.texture with _ | ptex <;> rcases hdr : c.drums with _ | pdr <;>
          rcases hrev : c.enable_reverb <;> rcases hsat : c.enable_saturation <;>
          rcases hcomp : c.enable_compression <;>
          simp only [Option.isSome_some, Option.isSome_none] <;> decide
  · rw [lofi_outputs, List.getLast?_concat]

/-- Witness for the amended C9 at a two-track merge and the default
configuration (tempo factor 0.75). -/
theorem graph_labels_amended_witness :
    (2 ≤ 2) ∧ ((1:ℚ)/4 ≤ PipelineConfig.tempo_factor cfgDefault) ∧
    (PipelineConfig.tempo_factor cfgDefault ≤ 4) ∧
    (((mergeGraph 2 [2]).map FilterNode.output).Nodup ∧
     ((mergeGraph 2 [2]).map FilterNode.output).getLast? = some (.acc (2-1)) ∧
     terminalLabels (mergeGraph 2 [2]) = [.acc (2-1)] ∧
     ((lofiFilterNodes cfgDefault).map FilterNode.output).Nodup ∧
     ((lofiFilterNodes cfgDefault).map FilterNode.output).getLast?
        = some (.txt "out")) :=
  ⟨le_refl 2, by norm_num [cfgDefault], by norm_num [cfgDefault],
   graph_labels_amended 2 [2] cfgDefault (le_refl 2) (by norm_num [cfgDefault])
     (by norm_num [cfgDefault])⟩

end MapleLofi
